import Mathlib

/-!
# Verification of the stock_market_Analyser analysis module

Shallow embedding of `src/analysis.py` (class `PortfolioAnalyzer` and the
module-level functions `identify_high_correlation_pairs` and
`calculate_portfolio_metrics`).

Modelling conventions:
* A price table is a list of rows; each row is a total function `Fin n → ℚ`
  from column (asset) indices to the price (the data model guarantees no
  missing cells after cleaning, so price cells are total).
* `pandas.pct_change` produces a missing value (NaN) in every cell of the
  first row; we model possibly-missing cells as `Option ℚ` and `dropna`
  as the filter keeping only rows with every cell present.
* Exact table arithmetic is carried out in `ℚ`; metrics that need a square
  root (volatility, correlation, portfolio volatility) live in `ℝ`.
* IEEE division by zero produces a non-finite value (inf or NaN), which is
  not a rational or real number; where the Python code can divide by zero
  (the ungated per-asset Sharpe ratio) we model the division as partially
  defined, returning `none` exactly when the divisor is zero.
-/

namespace StockAnalyser

/-- A row of a fully populated table with `n` asset columns. -/
abbrev Row (n : ℕ) := Fin n → ℚ

/-- A row of a table in which individual cells may be missing (NaN). -/
abbrev OptRow (n : ℕ) := Fin n → Option ℚ

/-- Model of `pandas.pct_change` on all rows after the first: row `t` (for `t ≥ 1`)
gets cell `(price[t] - price[t-1]) / price[t-1]`.  `prev` is the previous
row. -/
def pctChangeFrom {n : ℕ} (prev : Row n) : List (Row n) → List (OptRow n)
  | [] => []
  | cur :: rest => (fun i => some ((cur i - prev i) / prev i)) :: pctChangeFrom cur rest

/-- Model of `DataFrame.pct_change()`: the first row has no predecessor, so every one
of its cells is missing (NaN); each later row holds the fractional change
from the previous row. -/
def pctChange {n : ℕ} : List (Row n) → List (OptRow n)
  | [] => []
  | p :: rest => (fun _ => none) :: pctChangeFrom p rest

/-- A row is complete when no cell is missing. -/
def rowComplete {n : ℕ} (r : OptRow n) : Bool :=
  decide (∀ i, (r i).isSome)

/-- Model of `DataFrame.dropna()`: keep exactly the rows with no missing cell. -/
def dropna {n : ℕ} (t : List (OptRow n)) : List (OptRow n) :=
  t.filter rowComplete

/-- Embedding of `PortfolioAnalyzer.calculate_daily_returns`
(`src/analysis.py:42`): `self.price_data.pct_change().dropna()`. -/
def calculate_daily_returns {n : ℕ} (price_data : List (Row n)) : List (OptRow n) :=
  dropna (pctChange price_data)

/-! ## Risk/return metrics (`PortfolioAnalyzer.calculate_*`)

The metric methods operate on `self.returns_data`, a fully populated return
table, modelled as `List (Row n)` with exact `ℚ` cells; only the square
roots (volatility, correlation denominators) live in `ℝ`. -/

/-- Embedding of `PortfolioAnalyzer.calculate_mean_return` (`src/analysis.py:58`):
`self.returns_data.mean()`, the arithmetic mean of each asset column. -/
def mean_return {n : ℕ} (returns_data : List (Row n)) (i : Fin n) : ℚ :=
  (returns_data.map (fun r => r i)).sum / returns_data.length

/-- Sum of squared deviations of column `i` from its mean. -/
def sqDevSum {n : ℕ} (returns_data : List (Row n)) (i : Fin n) : ℚ :=
  (returns_data.map (fun r => (r i - mean_return returns_data i) ^ 2)).sum

/-- The sample variance with the `n - 1` denominator (ddof = 1), as used by
`pandas.DataFrame.std`. -/
def sampleVar {n : ℕ} (returns_data : List (Row n)) (i : Fin n) : ℚ :=
  sqDevSum returns_data i / ((returns_data.length : ℚ) - 1)

/-- Embedding of `PortfolioAnalyzer.calculate_volatility` (`src/analysis.py:75`):
`self.returns_data.std()`, the sample standard deviation — square root of
the sample variance. -/
noncomputable def calculate_volatility {n : ℕ} (returns_data : List (Row n))
    (i : Fin n) : ℝ :=
  Real.sqrt (sampleVar returns_data i)

/-- The fixed trading-day constant (`src/analysis.py:92`). -/
def trading_days : ℕ := 252

/-- Embedding of `PortfolioAnalyzer.calculate_annualized_metrics` (`src/analysis.py:94`):
`annualized_return = mean * trading_days`,
`annualized_volatility = volatility * sqrt(trading_days)`.
First component of the pair is `annualized_return`, second is
`annualized_volatility`. -/
noncomputable def calculate_annualized_metrics {n : ℕ} (returns_data : List (Row n)) :
    (Fin n → ℚ) × (Fin n → ℝ) :=
  (fun i => mean_return returns_data i * trading_days,
   fun i => calculate_volatility returns_data i * Real.sqrt trading_days)

/-- Pearson correlation of columns `i` and `j` as `DataFrame.corr`
computes it:
`Σ (x-x̄)(y-ȳ) / (sqrt (Σ (x-x̄)²) * sqrt (Σ (y-ȳ)²))`. -/
noncomputable def corrCell {n : ℕ} (returns_data : List (Row n)) (i j : Fin n) : ℝ :=
  ((returns_data.map
      (fun r => (r i - mean_return returns_data i) *
        (r j - mean_return returns_data j))).sum : ℚ) /
    (Real.sqrt (sqDevSum returns_data i) * Real.sqrt (sqDevSum returns_data j))

/-- Embedding of `PortfolioAnalyzer.calculate_correlation_matrix`
(`src/analysis.py:114`): `self.returns_data.corr()`. -/
noncomputable def calculate_correlation_matrix {n : ℕ} (returns_data : List (Row n)) :
    Fin n → Fin n → ℝ :=
  corrCell returns_data

/-- The annual risk-free rate constant (`src/analysis.py:159`). -/
def risk_free_rate : ℚ := 2 / 100

/-- Division as IEEE floating point behaves for finite operands: dividing by
zero yields a non-finite value (±inf or NaN), modelled as `none`. -/
noncomputable def fdiv (x y : ℝ) : Option ℝ :=
  if y = 0 then none else some (x / y)

/-- The per-asset Sharpe ratio of `PortfolioAnalyzer.calculate_risk_return_metrics`
(`src/analysis.py:162`):
`(mean daily return - risk_free_rate/252) / self.returns_data.std()` —
computed with no zero-volatility guard, hence partially defined. -/
noncomputable def sharpe_ratio_assets {n : ℕ} (returns_data : List (Row n))
    (i : Fin n) : Option ℝ :=
  fdiv ((mean_return returns_data i - risk_free_rate / trading_days : ℚ) : ℝ)
    (calculate_volatility returns_data i)

/-! ## Cumulative returns -/

/-- Elementwise running product: `cumprodFrom acc rows` multiplies `acc`
through the successive rows, emitting each partial product
(`DataFrame.cumprod` is this with `acc = 1`). -/
def cumprodFrom {n : ℕ} (acc : Row n) : List (Row n) → List (Row n)
  | [] => []
  | r :: rest =>
      (fun i => acc i * r i) :: cumprodFrom (fun i => acc i * r i) rest

/-- Embedding of `PortfolioAnalyzer.calculate_cumulative_returns`
(`src/analysis.py:131`): `(1 + self.returns_data).cumprod() - 1`,
computed independently per asset column. -/
def calculate_cumulative_returns {n : ℕ} (returns_data : List (Row n)) :
    List (Row n) :=
  (cumprodFrom (fun _ => 1) (returns_data.map (fun r i => 1 + r i))).map
    (fun c i => c i - 1)

/-! ## Portfolio aggregation (`calculate_portfolio_metrics`) -/

/-- Result record of `calculate_portfolio_metrics`. -/
structure PortfolioMetrics where
  portfolio_return : ℝ
  portfolio_volatility : ℝ
  sharpe_ratio : ℝ

/-- Embedding of `calculate_portfolio_metrics` (`src/analysis.py:222`):
`portfolio_return = np.sum(weights * returns)`;
`cov_matrix = correlation_matrix.values * np.outer(volatility, volatility)`;
`portfolio_volatility = sqrt(np.dot(weights, np.dot(cov_matrix, weights)))`;
`sharpe_ratio = portfolio_return / portfolio_volatility` when
`portfolio_volatility > 0`, else `0`. -/
noncomputable def calculate_portfolio_metrics {n : ℕ} (weights returns volatility : Fin n → ℝ)
    (correlation_matrix : Fin n → Fin n → ℝ) : PortfolioMetrics :=
  let pr : ℝ := ∑ i, weights i * returns i
  let cov : Fin n → Fin n → ℝ :=
    fun i j => correlation_matrix i j * (volatility i * volatility j)
  let pv : ℝ := Real.sqrt (∑ i, weights i * (∑ j, cov i j * weights j))
  { portfolio_return := pr
    portfolio_volatility := pv
    sharpe_ratio := if pv > 0 then pr / pv else 0 }

/-! ## High-correlation pairs (`identify_high_correlation_pairs`)

The function is generic in the numeric entries of the matrix it is handed;
we use exact `ℚ` entries so that everything stays executable. -/

/-- A reported pair: the two column indices and the correlation cell. -/
abbrev CorrPair (n : ℕ) := Fin n × Fin n × ℚ

/-- The double loop of `identify_high_correlation_pairs`
(`src/analysis.py:210`): for each `i`, for each `j` in `range(i+1, n)`,
keep `(i, j, M[i,j])` when `|M[i,j]| ≥ threshold`, in loop order. -/
def corrPairsLoop {n : ℕ} (M : Fin n → Fin n → ℚ) (threshold : ℚ) :
    List (CorrPair n) :=
  (List.finRange n).flatMap fun i =>
    ((List.finRange n).filter fun j => decide (i < j) && decide (|M i j| ≥ threshold)).map
      fun j => (i, j, M i j)

/-- Insert while keeping the list sorted by descending absolute coefficient;
an element is placed after every earlier element whose key is `≥` its own,
which is exactly the placement a stable descending sort gives. -/
def insertDesc {n : ℕ} (x : CorrPair n) : List (CorrPair n) → List (CorrPair n)
  | [] => [x]
  | y :: ys => if |y.2.2| ≤ |x.2.2| then x :: y :: ys else y :: insertDesc x ys

/-- Stable sort by descending absolute coefficient, modelling Python's
stable `sorted(pairs, key=lambda x: abs(x[2]), reverse=True)`. -/
def sortDesc {n : ℕ} : List (CorrPair n) → List (CorrPair n)
  | [] => []
  | x :: xs => insertDesc x (sortDesc xs)

/-- Embedding of `identify_high_correlation_pairs` (`src/analysis.py:192`). -/
def identify_high_correlation_pairs {n : ℕ} (correlation_matrix : Fin n → Fin n → ℚ)
    (threshold : ℚ) : List (CorrPair n) :=
  sortDesc (corrPairsLoop correlation_matrix threshold)

/-! ## The analyzer object as a state machine (for the frame property)

`PortfolioAnalyzer.__init__` stores `price_data` and initializes
`returns_data = None` and `metrics = {}`.  The methods mutate only
`returns_data` (the `if self.returns_data is None: self.calculate_daily_returns()`
guard) and the `metrics` cache; we model the object state explicitly and
each method as a function returning its value together with the new state. -/

/-- The mutable attributes of a `PortfolioAnalyzer` instance
(`src/analysis.py:27`): the price table, the cached return table and the
`metrics` dictionary (keys `mean_return`, `volatility`, `correlation`). -/
structure AnalyzerState (n : ℕ) where
  price_data : List (Row n)
  returns_data : Option (List (OptRow n))
  metric_mean : Option (Fin n → ℚ)
  metric_vol : Option (Fin n → ℝ)
  metric_corr : Option (Fin n → Fin n → ℝ)

/-- Embedding of `PortfolioAnalyzer.__init__` (`src/analysis.py:27`). -/
def initState {n : ℕ} (price_data : List (Row n)) : AnalyzerState n :=
  { price_data := price_data, returns_data := none,
    metric_mean := none, metric_vol := none, metric_corr := none }

/-- Every row that survives `dropna` is complete, so reading its cells with
a default is lossless; this converts the stored return table back to total
rows for the metric computations. -/
def toRows {n : ℕ} (t : List (OptRow n)) : List (Row n) :=
  t.map (fun r i => (r i).getD 0)

/-- The method `calculate_daily_returns` as a state transformer: it
recomputes the return table from `self.price_data`, stores it in
`self.returns_data` and returns it (`src/analysis.py:42`). -/
def dailyReturnsOp {n : ℕ} (s : AnalyzerState n) :
    List (OptRow n) × AnalyzerState n :=
  let r := calculate_daily_returns s.price_data
  (r, { s with returns_data := some r })

/-- Model of the `if self.returns_data is None: self.calculate_daily_returns()`
guard at the top of every metric method. -/
def ensureReturns {n : ℕ} (s : AnalyzerState n) : AnalyzerState n :=
  match s.returns_data with
  | some _ => s
  | none => (dailyReturnsOp s).2

/-- The return table a metric method reads from `self.returns_data`. -/
def currentReturns {n : ℕ} (s : AnalyzerState n) : List (Row n) :=
  toRows (s.returns_data.getD [])

/-- Embedding of `PortfolioAnalyzer.calculate_mean_return` as a state transformer:
ensures returns exist, stores the mean in `self.metrics` and returns it
(`src/analysis.py:58`). -/
def meanReturnOp {n : ℕ} (s : AnalyzerState n) :
    (Fin n → ℚ) × AnalyzerState n :=
  let s1 := ensureReturns s
  let m := mean_return (currentReturns s1)
  (m, { s1 with metric_mean := some m })

/-- Embedding of `PortfolioAnalyzer.calculate_volatility` as a state transformer
(`src/analysis.py:75`). -/
noncomputable def volatilityOp {n : ℕ} (s : AnalyzerState n) :
    (Fin n → ℝ) × AnalyzerState n :=
  let s1 := ensureReturns s
  let v := calculate_volatility (currentReturns s1)
  (v, { s1 with metric_vol := some v })

/-- Embedding of `PortfolioAnalyzer.calculate_annualized_metrics` as a state transformer:
it calls `calculate_mean_return()` and `calculate_volatility()` (each with
its own caching/metric writes) and scales them (`src/analysis.py:94`). -/
noncomputable def annualizedOp {n : ℕ} (s : AnalyzerState n) :
    ((Fin n → ℚ) × (Fin n → ℝ)) × AnalyzerState n :=
  let s1 := ensureReturns s
  let p1 := meanReturnOp s1
  let p2 := volatilityOp p1.2
  ((fun i => p1.1 i * trading_days,
    fun i => p2.1 i * Real.sqrt trading_days), p2.2)

/-- Embedding of `PortfolioAnalyzer.calculate_correlation_matrix` as a state transformer
(`src/analysis.py:114`). -/
noncomputable def correlationOp {n : ℕ} (s : AnalyzerState n) :
    (Fin n → Fin n → ℝ) × AnalyzerState n :=
  let s1 := ensureReturns s
  let c := calculate_correlation_matrix (currentReturns s1)
  (c, { s1 with metric_corr := some c })

/-- Embedding of `PortfolioAnalyzer.calculate_cumulative_returns` as a state transformer
(`src/analysis.py:131`); it writes no metric entry. -/
def cumulativeOp {n : ℕ} (s : AnalyzerState n) :
    List (Row n) × AnalyzerState n :=
  let s1 := ensureReturns s
  (calculate_cumulative_returns (currentReturns s1), s1)

/-- Rounding to 4 decimal places (`DataFrame.round(4)`), on exact values.
(IEEE rounds ties half-even; on the exact rationals we use the standard
`round`.  Which tie-breaking rule is used is immaterial to the properties
proved here.) -/
def roundTo4q (x : ℚ) : ℚ :=
  ((round (x * 10000) : ℤ) : ℚ) / 10000

/-- Rounding to 4 decimal places for the real-valued columns. -/
noncomputable def roundTo4r (x : ℝ) : ℝ :=
  ((round (x * 10000) : ℤ) : ℝ) / 10000

/-- One row (per asset) of the table built by
`PortfolioAnalyzer.calculate_risk_return_metrics` (`src/analysis.py:147`),
after the final `round(4)`. -/
structure RiskReturnRow where
  mean_daily : ℚ
  vol_daily : ℝ
  ann_return_pct : ℚ
  ann_vol_pct : ℝ
  sharpe : Option ℝ

/-- Embedding of `PortfolioAnalyzer.calculate_risk_return_metrics` as a state
transformer: builds the per-asset table from `calculate_mean_return()`,
`calculate_volatility()` and `calculate_annualized_metrics()`, adds the
ungated Sharpe ratio, and rounds to 4 decimals (`src/analysis.py:135`). -/
noncomputable def riskReturnOp {n : ℕ} (s : AnalyzerState n) :
    (Fin n → RiskReturnRow) × AnalyzerState n :=
  let s1 := ensureReturns s
  let p1 := meanReturnOp s1
  let p2 := volatilityOp p1.2
  let p3 := annualizedOp p2.2
  let sharpe := sharpe_ratio_assets (currentReturns p3.2)
  ((fun i =>
      { mean_daily := roundTo4q (p1.1 i)
        vol_daily := roundTo4r (p2.1 i)
        ann_return_pct := roundTo4q (p3.1.1 i * 100)
        ann_vol_pct := roundTo4r (p3.1.2 i * 100)
        sharpe := (sharpe i).map roundTo4r }), p3.2)

/-- The report dictionary of `PortfolioAnalyzer.get_summary_report`
(`src/analysis.py:178`). -/
structure SummaryReport (n : ℕ) where
  mean_returns : Fin n → ℚ
  volatility : Fin n → ℝ
  annualized_metrics : (Fin n → ℚ) × (Fin n → ℝ)
  correlation_matrix : Fin n → Fin n → ℝ
  risk_return_metrics : Fin n → RiskReturnRow
  cumulative_returns : List (Row n)
  returns_data : List (OptRow n)

/-- Embedding of `PortfolioAnalyzer.get_summary_report` as a state transformer: it
unconditionally recomputes the daily returns, then runs every metric
method in order (`src/analysis.py:167`). -/
noncomputable def summaryOp {n : ℕ} (s : AnalyzerState n) :
    SummaryReport n × AnalyzerState n :=
  let p0 := dailyReturnsOp s
  let p1 := meanReturnOp p0.2
  let p2 := volatilityOp p1.2
  let p3 := annualizedOp p2.2
  let p4 := correlationOp p3.2
  let p5 := riskReturnOp p4.2
  let p6 := cumulativeOp p5.2
  ({ mean_returns := p1.1
     volatility := p2.1
     annualized_metrics := p3.1
     correlation_matrix := p4.1
     risk_return_metrics := p5.1
     cumulative_returns := p6.1
     returns_data := p6.2.returns_data.getD [] }, p6.2)

/-- The public operations of a `PortfolioAnalyzer`, for quantifying over
arbitrary call sequences. -/
inductive AnalyzerOp where
  | daily
  | meanRet
  | vol
  | annualized
  | corr
  | riskReturn
  | cumulative
  | summary

/-- The state reached after one operation (discarding the value). -/
noncomputable def stepState {n : ℕ} : AnalyzerOp → AnalyzerState n → AnalyzerState n
  | .daily, s => (dailyReturnsOp s).2
  | .meanRet, s => (meanReturnOp s).2
  | .vol, s => (volatilityOp s).2
  | .annualized, s => (annualizedOp s).2
  | .corr, s => (correlationOp s).2
  | .riskReturn, s => (riskReturnOp s).2
  | .cumulative, s => (cumulativeOp s).2
  | .summary, s => (summaryOp s).2

/-- Run a sequence of operations from a state. -/
noncomputable def runOps {n : ℕ} : List AnalyzerOp → AnalyzerState n → AnalyzerState n
  | [], s => s
  | op :: ops, s => runOps ops (stepState op s)

/-! ## Supporting lemmas: the return engine -/

lemma pctChangeFrom_length {n : ℕ} (l : List (Row n)) (prev : Row n) :
    (pctChangeFrom prev l).length = l.length := by
  induction l generalizing prev with
  | nil => rfl
  | cons cur rest ih => simp [pctChangeFrom, ih]

lemma rowComplete_noneRow {n : ℕ} (hn : 0 < n) :
    rowComplete (fun _ => (none : Option ℚ) : OptRow n) = false := by
  simp only [rowComplete, decide_eq_false_iff_not]
  intro h
  simpa using h ⟨0, hn⟩

lemma pctChangeFrom_complete {n : ℕ} (l : List (Row n)) (prev : Row n) :
    ∀ r ∈ pctChangeFrom prev l, rowComplete r = true := by
  induction l generalizing prev with
  | nil => intro r hr; simp [pctChangeFrom] at hr
  | cons cur rest ih =>
      intro r hr
      rcases (by simpa [pctChangeFrom] using hr) with h | h
      · subst h; simp [rowComplete]
      · exact ih cur r h

lemma dropna_pctChangeFrom {n : ℕ} (l : List (Row n)) (prev : Row n) :
    dropna (pctChangeFrom prev l) = pctChangeFrom prev l :=
  List.filter_eq_self.2 (pctChangeFrom_complete l prev)

lemma calculate_daily_returns_cons {n : ℕ} (hn : 0 < n) (p : Row n)
    (rest : List (Row n)) :
    calculate_daily_returns (p :: rest) = pctChangeFrom p rest := by
  unfold calculate_daily_returns pctChange dropna
  rw [List.filter_cons_of_neg (by simp [rowComplete_noneRow hn])]
  exact dropna_pctChangeFrom rest p

lemma pctChangeFrom_get? {n : ℕ} (rest : List (Row n)) :
    ∀ (p : Row n) (t : ℕ) (pt pt1 : Row n),
      (p :: rest).get? t = some pt → (p :: rest).get? (t + 1) = some pt1 →
      (pctChangeFrom p rest).get? t =
        some (fun i => some ((pt1 i - pt i) / pt i)) := by
  induction rest with
  | nil =>
      intro p t pt pt1 _ h1
      simp at h1
  | cons q rest' ih =>
      intro p t pt pt1 h0 h1
      cases t with
      | zero =>
          simp at h0 h1
          subst h0; subst h1
          rfl
      | succ t' =>
          have h0' : (q :: rest').get? t' = some pt := by simpa using h0
          have h1' : (q :: rest').get? (t' + 1) = some pt1 := by simpa using h1
          simpa [pctChangeFrom] using ih q t' pt pt1 h0' h1'

/-- Claim C4: For every price table with at least one asset column, at least
2 rows and no missing cells, `calculate_daily_returns` returns a table with
exactly `rows - 1` rows (the first row is dropped), and the entry at row
`t` (for prices `price[t]`, `price[t+1]` in the original table) is
`(price[t+1] - price[t]) / price[t]` in every column — equivalently, entry
`t` of the output is `(price[t] - price[t-1]) / price[t-1]` for
`t = 1, …, rows-1` of the input. -/
theorem calculate_daily_returns_spec {n : ℕ} (prices : List (Row n))
    (hn : 0 < n) (hr : 2 ≤ prices.length) :
    (calculate_daily_returns prices).length = prices.length - 1 ∧
    ∀ (t : ℕ) (pt pt1 : Row n),
      prices.get? t = some pt → prices.get? (t + 1) = some pt1 →
      (calculate_daily_returns prices).get? t =
        some (fun i => some ((pt1 i - pt i) / pt i)) := by
  match prices, hr with
  | p :: rest, _ =>
    rw [calculate_daily_returns_cons hn p rest]
    exact ⟨by simp [pctChangeFrom_length], fun t pt pt1 h0 h1 =>
      pctChangeFrom_get? rest p t pt pt1 h0 h1⟩

/-- Witness for C4 at the concrete 1-column table with prices 100, 110,
99: the two return rows are 10% and -10%. -/
theorem calculate_daily_returns_spec_witness :
    (calculate_daily_returns (n := 1)
        [fun _ => 100, fun _ => 110, fun _ => 99]).length = 2 ∧
    (calculate_daily_returns (n := 1)
        [fun _ => 100, fun _ => 110, fun _ => 99]).get? 0 =
      some (fun i =>
        some (((fun _ => (110 : ℚ)) i - (fun _ => (100 : ℚ)) i) /
          (fun _ => (100 : ℚ)) i)) := by
  obtain ⟨h1, h2⟩ := calculate_daily_returns_spec (n := 1)
    [fun _ => 100, fun _ => 110, fun _ => 99] (by decide) (by decide)
  exact ⟨h1, h2 0 (fun _ => 100) (fun _ => 110) rfl rfl⟩

/-- Counterexample to claim C1 as stated: On a 1-column, 1-row price table,
`calculate_daily_returns` does not fail: it returns an empty return table
(0 rows) — there is no `InsufficientDataError` anywhere in the code. -/
theorem calculate_daily_returns_one_row_returns_empty :
    calculate_daily_returns (n := 1) [fun _ => 100] = [] := rfl

/-- Claim C1, amended: For every price table with at least one asset column
and fewer than 2 rows, `calculate_daily_returns` does not raise any error:
it returns the empty return table (0 rows). -/
theorem calculate_daily_returns_short_input_empty {n : ℕ}
    (prices : List (Row n)) (hn : 0 < n) (hr : prices.length < 2) :
    calculate_daily_returns prices = [] := by
  match prices, hr with
  | [], _ => rfl
  | [p], _ => simp [calculate_daily_returns_cons hn p [], pctChangeFrom]

/-- Witness for the amended C1 at the concrete one-row table. -/
theorem calculate_daily_returns_short_input_empty_witness :
    calculate_daily_returns (n := 1) [fun _ => 7] = [] :=
  calculate_daily_returns_short_input_empty (n := 1) [fun _ => 7]
    (by decide) (by decide)

/-! ## Supporting lemmas: cumulative returns -/

lemma cumprodFrom_length {n : ℕ} (l : List (Row n)) (acc : Row n) :
    (cumprodFrom acc l).length = l.length := by
  induction l generalizing acc with
  | nil => rfl
  | cons x l' ih => simp [cumprodFrom, ih]

lemma cumprodFrom_get?_succ {n : ℕ} (l : List (Row n)) :
    ∀ (acc : Row n) (t : ℕ) (c x : Row n),
      (cumprodFrom acc l).get? t = some c → l.get? (t + 1) = some x →
      (cumprodFrom acc l).get? (t + 1) = some (fun i => c i * x i) := by
  induction l with
  | nil => intro acc t c x h _; simp [cumprodFrom] at h
  | cons y l' ih =>
      intro acc t c x h0 h1
      cases t with
      | zero =>
          have hc : c = fun i => acc i * y i := by
            simpa [cumprodFrom] using h0.symm
          have hx : l'.get? 0 = some x := by simpa using h1
          match l', hx with
          | z :: l'', hx =>
              have hz : z = x := by simpa using hx
              subst hz hc
              rfl
      | succ t' =>
          have h0' : (cumprodFrom (fun i => acc i * y i) l').get? t' = some c := by
            simpa [cumprodFrom] using h0
          have h1' : l'.get? (t' + 1) = some x := by simpa using h1
          simpa [cumprodFrom] using ih (fun i => acc i * y i) t' c x h0' h1'

/-- Claim C5: `calculate_cumulative_returns` keeps the shape of the return
table and, per asset column independently, satisfies the running-product
recurrence: the first entry equals the first return, and entry `t+1`
equals `(1 + cumulative[t]) * (1 + return[t+1]) - 1`. -/
theorem calculate_cumulative_returns_spec {n : ℕ} (returns : List (Row n)) :
    (calculate_cumulative_returns returns).length = returns.length ∧
    (∀ r0, returns.get? 0 = some r0 →
      (calculate_cumulative_returns returns).get? 0 = some r0) ∧
    ∀ (t : ℕ) (c r : Row n),
      (calculate_cumulative_returns returns).get? t = some c →
      returns.get? (t + 1) = some r →
      (calculate_cumulative_returns returns).get? (t + 1) =
        some (fun i => (1 + c i) * (1 + r i) - 1) := by
  refine ⟨by simp [calculate_cumulative_returns, cumprodFrom_length], ?_, ?_⟩
  · intro r0 h0
    match returns, h0 with
    | r :: rest, h0 =>
        have hr : r = r0 := by simpa using h0
        subst hr
        show some _ = some r
        refine congrArg some (funext fun i => ?_)
        show (fun _ => (1 : ℚ)) i * (1 + r i) - 1 = r i
        ring
  · intro t c r hc hr
    have hmap : ((cumprodFrom (fun _ => 1)
        (returns.map fun r i => 1 + r i)).get? t).map
          (fun c i => c i - 1) = some c := by
      simpa [calculate_cumulative_returns, List.get?_map] using hc
    rcases Option.map_eq_some'.1 hmap with ⟨c', hc', hcc⟩
    have hr' : (returns.map fun r i => 1 + r i).get? (t + 1) =
        some (fun i => 1 + r i) := by
      rw [List.get?_map, hr]; rfl
    have hstep := cumprodFrom_get?_succ (returns.map fun r i => 1 + r i)
      (fun _ => 1) t c' (fun i => 1 + r i) hc' hr'
    have hout : (calculate_cumulative_returns returns).get? (t + 1) =
        some (fun i => c' i * (1 + r i) - 1) := by
      show ((cumprodFrom (fun _ => 1) (returns.map fun r i => 1 + r i)).map
        (fun c i => c i - 1)).get? (t + 1) = _
      rw [List.get?_map, hstep]
      rfl
    rw [hout]
    refine congrArg some (funext fun i => ?_)
    have : c i = c' i - 1 := by rw [← hcc]
    rw [this]
    ring

/-- Witness for C5 at the 1-column return table `[1/10, 1/5]`. -/
theorem calculate_cumulative_returns_spec_witness :
    (calculate_cumulative_returns (n := 1)
        [fun _ => 1/10, fun _ => 1/5]).get? 1 =
      some (fun i =>
        (1 + (fun _ => (1 : ℚ) * (1 + 1/10) - 1) i) *
          (1 + (fun _ => (1 : ℚ)/5) i) - 1) :=
  (calculate_cumulative_returns_spec (n := 1)
      [fun _ => 1/10, fun _ => 1/5]).2.2 0
    (fun _ => (1 : ℚ) * (1 + 1/10) - 1) (fun _ => (1 : ℚ)/5) rfl rfl

/-! ## Annualized metrics -/

/-- Claim C6: The annualized metrics are `mean * 252` and
`volatility * sqrt 252`, where 252 is the fixed `trading_days` constant
(not derived from the return table), and the daily volatility is the
sample standard deviation: the square root of the squared deviations from
the column mean divided by `n - 1`. -/
theorem calculate_annualized_metrics_spec {n : ℕ} (returns : List (Row n))
    (i : Fin n) :
    trading_days = 252 ∧
    (calculate_annualized_metrics returns).1 i = mean_return returns i * 252 ∧
    (calculate_annualized_metrics returns).2 i =
      calculate_volatility returns i * Real.sqrt 252 ∧
    calculate_volatility returns i =
      Real.sqrt
        ((((returns.map
            (fun r => (r i - mean_return returns i) ^ 2)).sum : ℚ) : ℝ) /
          ((returns.length : ℝ) - 1)) := by
  refine ⟨rfl, ?_, ?_, ?_⟩
  · simp only [calculate_annualized_metrics]
    norm_num [trading_days]
  · simp only [calculate_annualized_metrics]
    norm_num [trading_days]
  · unfold calculate_volatility
    congr 1
    rw [sampleVar, sqDevSum]
    push_cast
    ring

/-! ## Correlation matrix invariants -/

lemma sqDevSum_nonneg {n : ℕ} (returns : List (Row n)) (i : Fin n) :
    0 ≤ sqDevSum returns i := by
  refine List.sum_nonneg ?_
  intro x hx
  rcases List.mem_map.1 hx with ⟨r, _, rfl⟩
  exact sq_nonneg _

lemma list_sum_map_get {α : Type} (l : List α) (f : α → ℚ) :
    (l.map f).sum = ∑ k : Fin l.length, f (l.get k) := by
  induction l with
  | nil => simp
  | cons x xs ih =>
      rw [List.map_cons, List.sum_cons, ih]
      show _ = ∑ k : Fin (xs.length + 1), f ((x :: xs).get k)
      rw [Fin.sum_univ_succ]
      rfl

/-- Cauchy–Schwarz for the centered column sums, in exact arithmetic. -/
lemma corr_num_sq_le {n : ℕ} (returns : List (Row n)) (i j : Fin n) :
    ((returns.map
        (fun r => (r i - mean_return returns i) *
          (r j - mean_return returns j))).sum) ^ 2 ≤
      sqDevSum returns i * sqDevSum returns j := by
  rw [sqDevSum, sqDevSum, list_sum_map_get, list_sum_map_get, list_sum_map_get]
  exact Finset.sum_mul_sq_le_sq_mul_sq Finset.univ
    (fun k => returns.get k i - mean_return returns i)
    (fun k => returns.get k j - mean_return returns j)

/-- Claim C9: For a return table all of whose columns have non-zero
variance (equivalently, a non-zero sum of squared deviations), the
correlation matrix — square by construction, indexed by the asset columns —
is symmetric, has diagonal exactly 1, and all its entries lie in `[-1, 1]`. -/
theorem calculate_correlation_matrix_spec {n : ℕ} (returns : List (Row n))
    (hvar : ∀ i, sqDevSum returns i ≠ 0) :
    (∀ i j, calculate_correlation_matrix returns i j =
        calculate_correlation_matrix returns j i) ∧
    (∀ i, calculate_correlation_matrix returns i i = 1) ∧
    (∀ i j, -1 ≤ calculate_correlation_matrix returns i j ∧
        calculate_correlation_matrix returns i j ≤ 1) := by
  have hpos : ∀ i, 0 < (sqDevSum returns i : ℝ) := by
    intro i
    have h0 : (0 : ℚ) ≤ sqDevSum returns i := sqDevSum_nonneg returns i
    have : (sqDevSum returns i : ℚ) ≠ 0 := hvar i
    exact_mod_cast lt_of_le_of_ne h0 (Ne.symm this)
  refine ⟨?_, ?_, ?_⟩
  · intro i j
    unfold calculate_correlation_matrix corrCell
    rw [List.map_congr_left
      (fun r _ => mul_comm (r i - mean_return returns i)
        (r j - mean_return returns j)),
      mul_comm (Real.sqrt (sqDevSum returns i)) (Real.sqrt (sqDevSum returns j))]
  · intro i
    unfold calculate_correlation_matrix corrCell
    rw [List.map_congr_left
      (fun r _ => (sq (r i - mean_return returns i)).symm)]
    rw [Real.mul_self_sqrt (le_of_lt (hpos i))]
    rw [← sqDevSum]
    exact div_self (ne_of_gt (hpos i))
  · intro i j
    have habs : |calculate_correlation_matrix returns i j| ≤ 1 := by
      unfold calculate_correlation_matrix corrCell
      rw [abs_div]
      have hden : 0 < Real.sqrt (sqDevSum returns i) * Real.sqrt (sqDevSum returns j) :=
        mul_pos (Real.sqrt_pos.2 (hpos i)) (Real.sqrt_pos.2 (hpos j))
      rw [abs_of_pos hden]
      rw [div_le_one hden]
      have hnum : |(((returns.map
          (fun r => (r i - mean_return returns i) *
            (r j - mean_return returns j))).sum : ℚ) : ℝ)| =
          Real.sqrt ((((returns.map
            (fun r => (r i - mean_return returns i) *
              (r j - mean_return returns j))).sum : ℚ) : ℝ) ^ 2) :=
        (Real.sqrt_sq_eq_abs _).symm
      rw [hnum]
      have hcs : ((((returns.map
          (fun r => (r i - mean_return returns i) *
            (r j - mean_return returns j))).sum : ℚ) : ℝ) ^ 2) ≤
          (sqDevSum returns i : ℝ) * (sqDevSum returns j : ℝ) := by
        have := corr_num_sq_le returns i j
        exact_mod_cast this
      calc Real.sqrt ((((returns.map
            (fun r => (r i - mean_return returns i) *
              (r j - mean_return returns j))).sum : ℚ) : ℝ) ^ 2)
          ≤ Real.sqrt ((sqDevSum returns i : ℝ) * (sqDevSum returns j : ℝ)) :=
            Real.sqrt_le_sqrt hcs
        _ = Real.sqrt (sqDevSum returns i) * Real.sqrt (sqDevSum returns j) :=
            Real.sqrt_mul (le_of_lt (hpos i)) _
    exact abs_le.1 habs

/-- Witness for C9 at the concrete 2-column return table
`[(1, 1), (-1, -1)]` (both columns have non-zero variance): the diagonal
entry at the first asset is exactly 1. -/
theorem calculate_correlation_matrix_spec_witness :
    calculate_correlation_matrix (n := 2)
      [fun _ => 1, fun _ => -1] 0 0 = 1 :=
  (calculate_correlation_matrix_spec (n := 2)
      [fun _ => 1, fun _ => -1]
      (by intro i; fin_cases i <;> simp [sqDevSum, mean_return])).2.1 0

/-! ## Portfolio aggregation -/

/-- Claim C2: For weight, return, volatility vectors and a correlation
matrix of equal dimension `n`, `calculate_portfolio_metrics` returns the
portfolio return as the dot product of the weights and the returns, and
the portfolio volatility as the square root of the quadratic form
`wᵗ · Cov · w`, where the covariance matrix has
`Cov[i,j] = corr[i,j] * vol[i] * vol[j]` for every pair `(i, j)` —
including the diagonal, where it is `corr[i,i] * vol[i]²`. -/
theorem calculate_portfolio_metrics_spec {n : ℕ}
    (weights returns volatility : Fin n → ℝ)
    (correlation_matrix : Fin n → Fin n → ℝ) :
    (calculate_portfolio_metrics weights returns volatility
        correlation_matrix).portfolio_return =
      Matrix.dotProduct weights returns ∧
    (calculate_portfolio_metrics weights returns volatility
        correlation_matrix).portfolio_volatility =
      Real.sqrt (Matrix.dotProduct weights
        (Matrix.mulVec
          (Matrix.of fun i j =>
            correlation_matrix i j * volatility i * volatility j) weights)) := by
  constructor
  · rfl
  · show Real.sqrt _ = Real.sqrt _
    congr 1
    simp only [Matrix.dotProduct, Matrix.mulVec, Matrix.of_apply]
    refine Finset.sum_congr rfl fun i _ => ?_
    congr 1
    refine Finset.sum_congr rfl fun j _ => ?_
    ring

/-- Claim C7: `DegenerateVolatilityCondition` is never an exception (every
function here is total and returns a value), and the two Sharpe
computations treat zero volatility asymmetrically: the per-asset Sharpe
ratio has no zero-volatility guard, so division by a zero volatility
produces a non-finite/undefined value (`none`); the portfolio Sharpe ratio
substitutes `0` whenever the portfolio volatility is not strictly
positive. -/
theorem sharpe_zero_volatility_asymmetry :
    (∀ (n : ℕ) (returns_data : List (Row n)) (i : Fin n),
      calculate_volatility returns_data i = 0 →
      sharpe_ratio_assets returns_data i = none) ∧
    (∀ (n : ℕ) (weights returns volatility : Fin n → ℝ)
      (correlation_matrix : Fin n → Fin n → ℝ),
      ¬ 0 < (calculate_portfolio_metrics weights returns volatility
          correlation_matrix).portfolio_volatility →
      (calculate_portfolio_metrics weights returns volatility
          correlation_matrix).sharpe_ratio = 0) := by
  constructor
  · intro n returns_data i h
    unfold sharpe_ratio_assets fdiv
    rw [h]
    simp
  · intro n weights returns volatility correlation_matrix h
    have : (calculate_portfolio_metrics weights returns volatility
        correlation_matrix).sharpe_ratio =
        if 0 < (calculate_portfolio_metrics weights returns volatility
            correlation_matrix).portfolio_volatility then
          (calculate_portfolio_metrics weights returns volatility
              correlation_matrix).portfolio_return /
            (calculate_portfolio_metrics weights returns volatility
                correlation_matrix).portfolio_volatility
        else 0 := rfl
    rw [this, if_neg h]

/-- Witness for C7: the 1-asset return table `[1, 1]` has zero
volatility and an undefined (`none`) per-asset Sharpe ratio, while a
portfolio with all-zero volatilities gets Sharpe ratio `0`. -/
theorem sharpe_zero_volatility_asymmetry_witness :
    sharpe_ratio_assets (n := 1) [fun _ => 1, fun _ => 1] 0 = none ∧
    (calculate_portfolio_metrics (n := 1) (fun _ => 1) (fun _ => 1)
        (fun _ => 0) (fun _ _ => 1)).sharpe_ratio = 0 := by
  have hvol : calculate_volatility (n := 1) [fun _ => 1, fun _ => 1] 0 = 0 := by
    unfold calculate_volatility
    have : sampleVar (n := 1) [fun _ => 1, fun _ => 1] 0 = 0 := by
      simp [sampleVar, sqDevSum, mean_return]
    rw [this]
    simp
  have hpv : ¬ 0 < (calculate_portfolio_metrics (n := 1) (fun _ => 1)
      (fun _ => 1) (fun _ => 0) (fun _ _ => 1)).portfolio_volatility := by
    have : (calculate_portfolio_metrics (n := 1) (fun _ => 1) (fun _ => 1)
        (fun _ => 0) (fun _ _ => 1)).portfolio_volatility =
        Real.sqrt (∑ i : Fin 1, (1 : ℝ) * (∑ _j : Fin 1, 1 * (0 * 0) * 1)) := rfl
    rw [this]
    simp
  exact ⟨sharpe_zero_volatility_asymmetry.1 1 [fun _ => 1, fun _ => 1] 0 hvol,
    sharpe_zero_volatility_asymmetry.2 1 (fun _ => 1) (fun _ => 1)
      (fun _ => 0) (fun _ _ => 1) hpv⟩

/-- Claim C8: With the covariance input fixed, the portfolio return of
`calculate_portfolio_metrics` is linear in the weight vector (scaling all
weights by any `k` scales it by `k`); the portfolio volatility is
positively homogeneous of degree 1 (`k > 0`); and with weight 1 on one
asset whose correlation-diagonal entry is 1 and whose volatility is
non-negative, the portfolio volatility is exactly that asset's
volatility. -/
theorem calculate_portfolio_metrics_homogeneous {n : ℕ}
    (weights returns volatility : Fin n → ℝ)
    (correlation_matrix : Fin n → Fin n → ℝ) (i0 : Fin n)
    (hdiag : correlation_matrix i0 i0 = 1) (hv : 0 ≤ volatility i0) :
    (∀ k : ℝ,
      (calculate_portfolio_metrics (fun i => k * weights i) returns
          volatility correlation_matrix).portfolio_return =
        k * (calculate_portfolio_metrics weights returns volatility
          correlation_matrix).portfolio_return) ∧
    (∀ k : ℝ, 0 < k →
      (calculate_portfolio_metrics (fun i => k * weights i) returns
          volatility correlation_matrix).portfolio_volatility =
        k * (calculate_portfolio_metrics weights returns volatility
          correlation_matrix).portfolio_volatility) ∧
    (calculate_portfolio_metrics (fun i => if i = i0 then 1 else 0) returns
        volatility correlation_matrix).portfolio_volatility =
      volatility i0 := by
  refine ⟨?_, ?_, ?_⟩
  · intro k
    show (∑ i, (k * weights i) * returns i) = k * ∑ i, weights i * returns i
    rw [Finset.mul_sum]
    exact Finset.sum_congr rfl fun i _ => by ring
  · intro k hk
    show Real.sqrt _ = k * Real.sqrt _
    have hq : (∑ i, (k * weights i) *
        (∑ j, correlation_matrix i j * (volatility i * volatility j) *
          (k * weights j))) =
        k ^ 2 * (∑ i, weights i *
          (∑ j, correlation_matrix i j * (volatility i * volatility j) *
            weights j)) := by
      simp only [Finset.mul_sum]
      refine Finset.sum_congr rfl fun i _ => ?_
      refine Finset.sum_congr rfl fun j _ => ?_
      ring
    rw [hq, Real.sqrt_mul (sq_nonneg k), Real.sqrt_sq (le_of_lt hk)]
  · show Real.sqrt _ = volatility i0
    have hq : (∑ i, (if i = i0 then (1 : ℝ) else 0) *
        (∑ j, correlation_matrix i j * (volatility i * volatility j) *
          (if j = i0 then (1 : ℝ) else 0))) =
        volatility i0 * volatility i0 := by
      rw [Finset.sum_eq_single i0]
      · rw [Finset.sum_eq_single i0]
        · simp [hdiag]
        · intro j _ hj
          simp [hj]
        · intro h
          exact absurd (Finset.mem_univ i0) h
      · intro i _ hi
        simp [hi]
      · intro h
        exact absurd (Finset.mem_univ i0) h
    rw [hq, Real.sqrt_mul_self hv]

/-- Witness for C8: a 2-asset portfolio with all weight on asset 0,
volatility vector `(2, 3)` and a correlation matrix with unit diagonal has
portfolio volatility exactly 2. -/
theorem calculate_portfolio_metrics_homogeneous_witness :
    (calculate_portfolio_metrics (n := 2) (fun i => if i = 0 then 1 else 0)
        (fun _ => 1) (fun i => if i = 0 then 2 else 3)
        (fun i j => if i = j then 1 else 1 / 2)).portfolio_volatility =
      (fun i : Fin 2 => if i = 0 then (2 : ℝ) else 3) 0 :=
  (calculate_portfolio_metrics_homogeneous (n := 2)
      (fun i => if i = 0 then 1 else 0) (fun _ => 1)
      (fun i => if i = 0 then 2 else 3)
      (fun i j => if i = j then 1 else 1 / 2) 0
      (by simp) (by simp)).2.2

/-! ## High-correlation pairs -/

/-- Descending order on the absolute correlation coefficient. -/
abbrev descRel {n : ℕ} (a b : CorrPair n) : Prop :=
  |b.2.2| ≤ |a.2.2|

instance descRel_total {n : ℕ} : IsTotal (CorrPair n) descRel :=
  ⟨fun a b => le_total |b.2.2| |a.2.2|⟩

instance descRel_trans {n : ℕ} : IsTrans (CorrPair n) descRel :=
  ⟨fun _ _ _ hab hbc => le_trans hbc hab⟩

lemma insertDesc_eq_orderedInsert {n : ℕ} (x : CorrPair n) (l : List (CorrPair n)) :
    insertDesc x l = List.orderedInsert descRel x l := by
  induction l with
  | nil => rfl
  | cons y ys ih =>
      by_cases h : |y.2.2| ≤ |x.2.2| <;>
        simp [insertDesc, List.orderedInsert, descRel, h, ih]

lemma sortDesc_eq_insertionSort {n : ℕ} (l : List (CorrPair n)) :
    sortDesc l = List.insertionSort descRel l := by
  induction l with
  | nil => rfl
  | cons x xs ih => simp [sortDesc, List.insertionSort, insertDesc_eq_orderedInsert, ih]

lemma identify_perm_loop {n : ℕ} (M : Fin n → Fin n → ℚ) (threshold : ℚ) :
    List.Perm (identify_high_correlation_pairs M threshold)
      (corrPairsLoop M threshold) := by
  rw [identify_high_correlation_pairs, sortDesc_eq_insertionSort]
  exact List.perm_insertionSort descRel _

lemma mem_corrPairsLoop {n : ℕ} (M : Fin n → Fin n → ℚ) (threshold : ℚ)
    (p : CorrPair n) :
    p ∈ corrPairsLoop M threshold ↔
      p.1 < p.2.1 ∧ threshold ≤ |M p.1 p.2.1| ∧ p.2.2 = M p.1 p.2.1 := by
  simp only [corrPairsLoop, List.mem_flatMap, List.mem_map, List.mem_filter,
    List.mem_finRange, Bool.and_eq_true, decide_eq_true_eq, true_and, ge_iff_le]
  constructor
  · rintro ⟨i, j, ⟨hij, ht⟩, rfl⟩
    exact ⟨hij, ht, rfl⟩
  · rintro ⟨h1, h2, h3⟩
    exact ⟨p.1, p.2.1, ⟨h1, h2⟩, by
      obtain ⟨a, b, c⟩ := p
      simp only at h3 ⊢
      rw [h3]⟩

lemma mem_identify {n : ℕ} (M : Fin n → Fin n → ℚ) (threshold : ℚ)
    (p : CorrPair n) :
    p ∈ identify_high_correlation_pairs M threshold ↔
      p.1 < p.2.1 ∧ threshold ≤ |M p.1 p.2.1| ∧ p.2.2 = M p.1 p.2.1 :=
  (identify_perm_loop M threshold).mem_iff.trans (mem_corrPairsLoop M threshold p)

lemma nodup_corrPairsLoop {n : ℕ} (M : Fin n → Fin n → ℚ) (threshold : ℚ) :
    (corrPairsLoop M threshold).Nodup := by
  refine List.nodup_flatMap.2 ⟨?_, ?_⟩
  · intro i _
    refine List.Nodup.map_on ?_ ((List.nodup_finRange n).filter _)
    intro x _ y _ h
    exact congrArg (fun q => q.2.1) h
  · refine (List.nodup_finRange n).imp ?_
    intro i1 i2 hne
    intro a ha1 ha2
    rcases List.mem_map.1 ha1 with ⟨j1, _, rfl⟩
    rcases List.mem_map.1 ha2 with ⟨j2, _, heq⟩
    exact hne (congrArg (fun q => q.1) heq).symm

lemma filter_insertDesc {n : ℕ} (q : ℚ) (x : CorrPair n) (l : List (CorrPair n)) :
    (insertDesc x l).filter (fun y => decide (|y.2.2| = q)) =
      if |x.2.2| = q then
        x :: l.filter (fun y => decide (|y.2.2| = q))
      else l.filter (fun y => decide (|y.2.2| = q)) := by
  induction l with
  | nil =>
      simp only [insertDesc, List.filter_cons, List.filter_nil, decide_eq_true_eq]
  | cons y ys ih =>
      show (if |y.2.2| ≤ |x.2.2| then x :: y :: ys else
        y :: insertDesc x ys).filter _ = _
      by_cases hxy : |y.2.2| ≤ |x.2.2|
      · rw [if_pos hxy]
        simp only [List.filter_cons, decide_eq_true_eq]
      · rw [if_neg hxy]
        have hyx : |x.2.2| < |y.2.2| := lt_of_not_le hxy
        simp only [List.filter_cons, decide_eq_true_eq, ih]
        all_goals
          (split_ifs with h1 h2 <;>
            first
              | rfl
              | exact absurd (h2.trans h1.symm) (ne_of_lt hyx))

lemma filter_sortDesc {n : ℕ} (q : ℚ) (l : List (CorrPair n)) :
    (sortDesc l).filter (fun y => decide (|y.2.2| = q)) =
      l.filter (fun y => decide (|y.2.2| = q)) := by
  induction l with
  | nil => rfl
  | cons x xs ih =>
      show (insertDesc x (sortDesc xs)).filter _ = _
      rw [filter_insertDesc]
      by_cases hx : |x.2.2| = q <;> simp [List.filter_cons, hx, ih]

/-- Claim C3: `identify_high_correlation_pairs` enumerates each unordered
asset pair exactly once (its output has no duplicates, and contains the
triple `(i, j, c)` exactly when `i < j`, `|M i j| ≥ threshold` and
`c = M i j`); the output is sorted by descending absolute coefficient;
ties are broken by the original enumeration order (restricting the output
to the pairs of any single absolute coefficient gives exactly the loop
enumeration, in its order — a stable sort); and with `threshold = 0` every
pair `i < j` is returned. -/
theorem identify_high_correlation_pairs_spec {n : ℕ}
    (correlation_matrix : Fin n → Fin n → ℚ) (threshold : ℚ) :
    (∀ p : CorrPair n,
      p ∈ identify_high_correlation_pairs correlation_matrix threshold ↔
        p.1 < p.2.1 ∧ threshold ≤ |correlation_matrix p.1 p.2.1| ∧
          p.2.2 = correlation_matrix p.1 p.2.1) ∧
    (identify_high_correlation_pairs correlation_matrix threshold).Nodup ∧
    List.Sorted (fun a b : CorrPair n => |b.2.2| ≤ |a.2.2|)
      (identify_high_correlation_pairs correlation_matrix threshold) ∧
    (∀ q : ℚ,
      (identify_high_correlation_pairs correlation_matrix threshold).filter
          (fun y => decide (|y.2.2| = q)) =
        (corrPairsLoop correlation_matrix threshold).filter
          (fun y => decide (|y.2.2| = q))) ∧
    (∀ i j : Fin n, i < j →
      (i, j, correlation_matrix i j) ∈
        identify_high_correlation_pairs correlation_matrix 0) := by
  refine ⟨mem_identify correlation_matrix threshold, ?_, ?_, ?_, ?_⟩
  · exact (identify_perm_loop correlation_matrix threshold).nodup_iff.2
      (nodup_corrPairsLoop correlation_matrix threshold)
  · rw [identify_high_correlation_pairs, sortDesc_eq_insertionSort]
    exact List.sorted_insertionSort descRel _
  · intro q
    rw [identify_high_correlation_pairs]
    exact filter_sortDesc q _
  · intro i j hij
    exact (mem_identify correlation_matrix 0 (i, j, correlation_matrix i j)).2
      ⟨hij, abs_nonneg _, rfl⟩

/-- Witness for C3 at the concrete 2×2 matrix with off-diagonal 1/2 and
threshold 0: the pair `(0, 1)` is returned. -/
theorem identify_high_correlation_pairs_spec_witness :
    ((0 : Fin 2), (1 : Fin 2), (1 : ℚ) / 2) ∈
      identify_high_correlation_pairs (n := 2)
        (fun i j => if i = j then 1 else 1 / 2) 0 := by
  have h := (identify_high_correlation_pairs_spec (n := 2)
      (fun i j => if i = j then 1 else 1 / 2) 0).2.2.2.2 0 1 (by decide)
  simpa using h

/-! ## Frame property of the analyzer object -/

lemma ensureReturns_price {n : ℕ} (s : AnalyzerState n) :
    (ensureReturns s).price_data = s.price_data := by
  cases h : s.returns_data <;> simp [ensureReturns, dailyReturnsOp, h]

lemma stepState_price {n : ℕ} (op : AnalyzerOp) (s : AnalyzerState n) :
    (stepState op s).price_data = s.price_data := by
  cases op <;> cases h : s.returns_data <;>
    simp [stepState, dailyReturnsOp, meanReturnOp, volatilityOp, annualizedOp,
      correlationOp, riskReturnOp, cumulativeOp, summaryOp, ensureReturns, h]

lemma runOps_price {n : ℕ} (ops : List AnalyzerOp) :
    ∀ s : AnalyzerState n, (runOps ops s).price_data = s.price_data := by
  induction ops with
  | nil => intro s; rfl
  | cons op rest ih =>
      intro s
      rw [runOps, ih (stepState op s), stepState_price]

/-- Claim C10: No `PortfolioAnalyzer` operation changes `self.price_data`:
after every sequence of operations the price table is the one the analyzer
was constructed with; and every operation, invoked a second time on the
analyzer it just ran on, returns a result equal to the first one (the
methods only cache `returns_data` and the `metrics` entries, both derived
from the unchanged price table). -/
theorem analyzer_frame_and_idempotent {n : ℕ} :
    (∀ (ops : List AnalyzerOp) (s : AnalyzerState n),
      (runOps ops s).price_data = s.price_data) ∧
    (∀ s : AnalyzerState n,
      (dailyReturnsOp (dailyReturnsOp s).2).1 = (dailyReturnsOp s).1) ∧
    (∀ s : AnalyzerState n,
      (meanReturnOp (meanReturnOp s).2).1 = (meanReturnOp s).1) ∧
    (∀ s : AnalyzerState n,
      (volatilityOp (volatilityOp s).2).1 = (volatilityOp s).1) ∧
    (∀ s : AnalyzerState n,
      (annualizedOp (annualizedOp s).2).1 = (annualizedOp s).1) ∧
    (∀ s : AnalyzerState n,
      (correlationOp (correlationOp s).2).1 = (correlationOp s).1) ∧
    (∀ s : AnalyzerState n,
      (riskReturnOp (riskReturnOp s).2).1 = (riskReturnOp s).1) ∧
    (∀ s : AnalyzerState n,
      (cumulativeOp (cumulativeOp s).2).1 = (cumulativeOp s).1) ∧
    (∀ s : AnalyzerState n,
      (summaryOp (summaryOp s).2).1 = (summaryOp s).1) := by
  refine ⟨fun ops s => runOps_price ops s, ?_, ?_, ?_, ?_, ?_, ?_, ?_, ?_⟩ <;>
    intro s <;> cases h : s.returns_data <;>
      simp [dailyReturnsOp, meanReturnOp, volatilityOp, annualizedOp,
        correlationOp, riskReturnOp, cumulativeOp, summaryOp, ensureReturns,
        currentReturns, h]

end StockAnalyser
